import Mathlib

/-!
# Verification of the MLP training-data preparation pipeline

Shallow embedding of `scripts/process_data.py` and the pipeline parts of
`scripts/mlp_prep.py` (class `ProcessData`, helpers `restricted_percent`,
`restricted_size`, `dedupSingleCSV`, `processCSVList`), together with proofs
about the pipeline's specified properties.

Modelling conventions:
* CSV fields are `List Char`, rows are lists of fields, files are `List Char`
  texts; the filesystem is a map from path names to texts.
* Python's global `random` generator is modelled as explicit state of type
  `RState`.  `random.seed(n)` replaces the state by a pure function of `n`;
  `random.shuffle` is the Fisher–Yates loop of CPython's `random.shuffle`
  (for i in reversed(range(1, len(x))): j = randbelow(i+1); swap).  The
  numeric stream of the generator itself (CPython uses MT19937) is modelled
  by a concrete 64-bit linear-congruential step; every property proved here
  depends only on the seeding discipline and on the shuffle being a
  positional permutation, never on particular generator outputs.
* Python `float` arithmetic in `int((percentage / 100) * n)` is modelled
  exactly: binary64 values are dyadic rationals with a 53-bit significand,
  and each operation rounds its exact rational result to nearest, ties to
  even.  The computation is expressed over `ℕ`/`ℤ` so that it is kernel
  executable.
* Python `set` iteration order is unspecified (it depends on the per-process
  string hash seed), so `list(set(xs))` is modelled by an arbitrary
  enumeration function `enum` assumed to satisfy `SetEnum` (no duplicates,
  same membership); `enumFirst` is one concrete such enumeration.
* Python floats reaching `restricted_percent` are modelled as exact
  rationals plus an explicit non-comparable NaN (`PyFloat`), since `nan`
  makes both range comparisons false.
* `v & ((1 << W) - 1)` on a Python `int` equals `v mod 2^W` (also for
  negative `v`, since Python integers behave as infinite two's complement
  and `%` returns a representative in `[0, 2^W)`); the embedding uses
  `Int.emod`, which has the same convention.
-/

/-! ## Fields, rows and Python string/int primitives -/

abbrev CsvField := List Char

abbrev Row := List CsvField

/-- Characters removed by Python's `str.strip()` (ASCII whitespace). -/
def isPySpace (c : Char) : Bool :=
  c = ' ' || c = '\t' || c = '\n' || c = '\r' || c = '\x0b' || c = '\x0c'

/-- Python `str.strip()`: drop whitespace from both ends. -/
def stripChars (l : List Char) : List Char :=
  ((l.dropWhile isPySpace).reverse.dropWhile isPySpace).reverse

/-- Value of a decimal digit character, `none` for non-digits. -/
def digToNat (c : Char) : Option ℕ :=
  if '0' ≤ c ∧ c ≤ '9' then some (c.toNat - 48) else none

/-- Parse a nonempty all-digit string as a natural number. -/
def parseDigits (l : List Char) : Option ℕ :=
  if l = [] then none
  else l.foldl (fun acc c => acc.bind fun a => (digToNat c).map fun d => a * 10 + d) (some 0)

/-- Python `int(s, 10)` on an already-stripped string: optional sign followed
by decimal digits.  (Underscore digit grouping, which CPython also accepts,
is not modelled; no claim depends on it.) -/
def pyParseInt (l : List Char) : Option ℤ :=
  match l with
  | '+' :: rest => (parseDigits rest).map fun n => (n : ℤ)
  | '-' :: rest => (parseDigits rest).map fun n => -(n : ℤ)
  | _ => (parseDigits l).map fun n => (n : ℤ)

/-- Decimal digits of `n`, most significant first (empty for 0); fuel-based
so that it is structural and kernel-reducible. -/
def toDecCore : ℕ → ℕ → List Char
  | 0, _ => []
  | fuel + 1, n =>
    if n = 0 then [] else toDecCore fuel (n / 10) ++ [Char.ofNat (48 + n % 10)]

/-- Python `str(n)` for a nonnegative integer. -/
def toDecChars (n : ℕ) : List Char :=
  if n = 0 then ['0'] else toDecCore (n + 1) n

/-- Decidable equality for `Except` results (needed to settle concrete
pipeline runs by `decide`). -/
instance exceptDecEq {ε α : Type} [DecidableEq ε] [DecidableEq α] :
    DecidableEq (Except ε α) := fun x y =>
  match x, y with
  | .ok a, .ok b => if h : a = b then .isTrue (by rw [h]) else .isFalse (by simp [h])
  | .error a, .error b => if h : a = b then .isTrue (by rw [h]) else .isFalse (by simp [h])
  | .ok _, .error _ => .isFalse (by simp)
  | .error _, .ok _ => .isFalse (by simp)

/-! ## The modelled `random` module -/

/-- State of the global pseudo-random generator. -/
abbrev RState := ℕ

/-- `random.seed(s)`: the new state is a pure function of the seed alone. -/
def rngSeed (s : ℤ) : RState := s.natAbs % 2 ^ 64

/-- One generator step (concrete 64-bit LCG standing in for MT19937). -/
def rngStep (g : RState) : RState :=
  (6364136223846793005 * g + 1442695040888963407) % 2 ^ 64

/-- `random._randbelow(n)`: next state and a value `< n`. -/
def randBelow (g : RState) (n : ℕ) : RState × ℕ :=
  let g' := rngStep g
  (g', g' / 2 ^ 11 % n)

/-- Swap the entries of a list at positions `i` and `j` (no-op when either
index is out of range). -/
def lswap (l : List α) (i j : ℕ) : List α :=
  match l[i]?, l[j]? with
  | some x, some y => (l.set i y).set j x
  | _, _ => l

/-- The loop of CPython `random.shuffle`:
`for i in reversed(range(1, len(x))): j = _randbelow(i + 1); swap x[i] x[j]`.
The third argument is the current loop index `i`. -/
def fyGo (step : RState → ℕ → RState × ℕ) (g : RState) (l : List α) :
    ℕ → RState × List α
  | 0 => (g, l)
  | i + 1 =>
    let p := step g (i + 2)
    fyGo step p.1 (lswap l (i + 1) p.2) i

/-- `ProcessData.shuffle_data`: `random.seed(self.seed)` followed by
`random.shuffle(data)`.  The incoming generator state `g` is discarded by
the reseeding, exactly as in the source. -/
def shuffle_data (seed : ℤ) (g : RState) (l : List α) : RState × List α :=
  let _ := g
  fyGo randBelow (rngSeed seed) l (l.length - 1)

/-! ## Binary64 model of `int((percentage / 100) * n)` -/

/-- Number of binary digits of `n` (0 for 0); fuel-based. -/
def bitLenF : ℕ → ℕ → ℕ
  | 0, _ => 0
  | fuel + 1, n => if n = 0 then 0 else bitLenF fuel (n / 2) + 1

/-- Number of binary digits of `n`. -/
def bitLen (n : ℕ) : ℕ := bitLenF n n

/-- Whether `2 ^ e * b ≤ a`, i.e. `2 ^ e ≤ a / b` as rationals. -/
def qLe2p (b a : ℕ) (e : ℤ) : Bool :=
  if 0 ≤ e then b * 2 ^ e.toNat ≤ a else b ≤ a * 2 ^ (-e).toNat

/-- The binade exponent of the positive rational `a / b`: the unique `e`
with `2 ^ e ≤ a / b < 2 ^ (e + 1)`. -/
def qExp (a b : ℕ) : ℤ :=
  let d : ℤ := (bitLen a : ℤ) - (bitLen b : ℤ)
  if qLe2p b a d then d else d - 1

/-- Round the exact ratio `A / B` to the nearest integer, ties to even. -/
def rneDiv (A B : ℕ) : ℕ :=
  if 2 * (A % B) < B then A / B
  else if B < 2 * (A % B) then A / B + 1
  else if A / B % 2 = 0 then A / B else A / B + 1

/-- Round `(a / b) * 2 ^ s` to the nearest integer, ties to even. -/
def rneScaled (a b : ℕ) (s : ℤ) : ℕ :=
  rneDiv (if 0 ≤ s then a * 2 ^ s.toNat else a) (if 0 ≤ s then b else b * 2 ^ (-s).toNat)

/-- Round the positive rational `a / b` to a binary64 value, returned as a
dyadic pair `(m, e)` meaning `m * 2 ^ e` with `2 ^ 52 ≤ m ≤ 2 ^ 53`.
(The inputs arising here are far from the overflow/subnormal range.) -/
def roundPos (a b : ℕ) : ℕ × ℤ :=
  (rneScaled a b (52 - qExp a b), qExp a b - 52)

/-- Exact value of a dyadic pair. -/
def dyadVal (m : ℕ) (e : ℤ) : ℚ := (m : ℚ) * 2 ^ e

/-- `int(x)` of a nonnegative dyadic value (truncation = floor here). -/
def dyadFloor (m : ℕ) (e : ℤ) : ℕ :=
  if 0 ≤ e then m * 2 ^ e.toNat else m / 2 ^ (-e).toNat

/-- Binary64 result of `percentage / 100` where the stored double
`percentage` has exact value `pa / pb`. -/
def fl1 (pa pb : ℕ) : ℕ × ℤ :=
  if pa = 0 then (0, 0) else roundPos pa (pb * 100)

/-- Binary64 result of multiplying the double `m1 * 2 ^ e1` by the integer
`n` (exact for `n < 2 ^ 53`, which covers every realizable list length). -/
def fl2 (m1 : ℕ) (e1 : ℤ) (n : ℕ) : ℕ × ℤ :=
  if m1 * n = 0 then (0, 0)
  else if 0 ≤ e1 then roundPos (m1 * n * 2 ^ e1.toNat) 1
  else roundPos (m1 * n) (2 ^ (-e1).toNat)

/-- `int((self.percentage / 100) * num_unique_lines)` where the double
`self.percentage` has exact rational value `pa / pb`. -/
def pyTakeCount (pa pb n : ℕ) : ℕ :=
  dyadFloor (fl2 (fl1 pa pb).1 (fl1 pa pb).2 n).1 (fl2 (fl1 pa pb).1 (fl1 pa pb).2 n).2

/-! ## The `ProcessData` pipeline -/

/-- Malformed-row failures raised inside the processing loop. -/
inductive RowErr where
  /-- `IndexError`: the row lacks a field demanded by the schema. -/
  | indexError : RowErr
  /-- `ValueError`: the history field is not a valid base-10 integer. -/
  | valueError : RowErr
deriving DecidableEq, Repr

/-- Indices to target in each line of the CSV. -/
def target_indicies : List ℕ := [0, 3]

/-- `[row[index] for index in target_indicies]`: select the schema fields,
raising `IndexError` when one is missing. -/
def selectIdx (row : Row) : List ℕ → Option Row
  | [] => some []
  | i :: rest =>
    match row.get? i, selectIdx row rest with
    | some f, some fs => some (f :: fs)
    | _, _ => none

/-- The per-row body of `ProcessData.process`: optional column extraction
followed by stripping, parsing and masking of the history field at index 1.
Note the masking happens on both branches of `isProcessed`, as in the
source. -/
def decodeRow (inputSize : ℕ) (isProcessed : Bool) (row : Row) : Except RowErr Row :=
  let extracted? : Except RowErr Row :=
    if isProcessed then .ok row
    else
      match selectIdx row target_indicies with
      | some ex => .ok ex
      | none => .error .indexError
  match extracted? with
  | .error e => .error e
  | .ok extracted =>
    match extracted.get? 1 with
    | none => .error .indexError
    | some h =>
      match pyParseInt (stripChars h) with
      | none => .error .valueError
      | some v => .ok (extracted.set 1 (toDecChars ((v % ((2 : ℤ) ^ inputSize)).toNat)))

/-- The `for row in shuffled_data` loop: process rows in order, raising at
the first malformed row (the partially built list is then discarded). -/
def processLoop (f : Row → Except RowErr Row) : List Row → Except RowErr (List Row)
  | [] => .ok []
  | r :: rest =>
    match f r with
    | .error e => .error e
    | .ok r' =>
      match processLoop f rest with
      | .error e => .error e
      | .ok rs => .ok (r' :: rs)

/-- A list enumeration faithfully models `list(set(xs))` iff it has no
duplicates and the same membership as its input.  The actual order CPython
produces depends on the per-process string hash seed and is unspecified. -/
def SetEnum (enum : List Row → List Row) : Prop :=
  ∀ l : List Row, (enum l).Nodup ∧ ∀ a, a ∈ enum l ↔ a ∈ l

/-- One concrete admissible enumeration (first occurrences, in order). -/
def enumFirst (l : List Row) : List Row := l.dedup

/-- The dedup stage: `set(tuple(row) for row in processed_data)` when
`dedup` is set, identity otherwise. -/
def pyDedup (enum : List Row → List Row) (dedup : Bool) (l : List Row) : List Row :=
  if dedup then enum l else l

/-- The shuffle step of `ProcessData.process`: shuffle only when a seed was
provided. -/
def pyMaybeShuffle (seed : Option ℤ) (g : RState) (rows : List Row) : List Row :=
  match seed with
  | some s => (shuffle_data s g rows).2
  | none => rows

/-- The truncation step of `ProcessData.process`:
`processed_set = list(processed_set)[:num_lines_to_take_from_set]`. -/
def pyTruncate (pa pb : ℕ) (l : List Row) : List Row :=
  l.take (pyTakeCount pa pb l.length)

/-- The in-memory part of `ProcessData.process` (between `read_csv` and the
final write): optional seeded shuffle, per-row extract/mask loop, optional
dedup, then prefix truncation by `int((percentage / 100) * len)`. -/
def pyProcess (enum : List Row → List Row) (pa pb : ℕ) (seed : Option ℤ)
    (inputSize : ℕ) (dedup isProcessed : Bool) (g : RState) (data : List Row) :
    Except RowErr (List Row) :=
  match processLoop (decodeRow inputSize isProcessed) (pyMaybeShuffle seed g data) with
  | .error e => .error e
  | .ok processed => .ok (pyTruncate pa pb (pyDedup enum dedup processed))

/-- The sampling stage of `ProcessData.process` in isolation: the seeded
shuffle (when a seed is provided) followed by the prefix truncation. -/
def pySamplerStage (pa pb : ℕ) (seed : Option ℤ) (g : RState) (rows : List Row) :
    List Row :=
  pyTruncate pa pb (pyMaybeShuffle seed g rows)

/-! ## Files, rendering and the filesystem -/

/-- One CSV line as written by `csv.writer` (default dialect: comma
separator, CRLF line terminator; quoting never triggers on these fields). -/
def renderRow (r : Row) : List Char := List.intercalate [','] r ++ ['\r', '\n']

/-- A whole output file. -/
def renderFile (rows : List Row) : List Char := (rows.map renderRow).flatten

/-- Split a character list at every occurrence of `c`. -/
def splitOnChar (c : Char) : List Char → List (List Char)
  | [] => [[]]
  | x :: xs =>
    let r := splitOnChar c xs
    if x = c then [] :: r
    else
      match r with
      | [] => [[x]]
      | y :: ys => (x :: y) :: ys

/-- One line as read by `csv.reader`: an empty line gives the empty row,
otherwise split on commas (a trailing `'\r'` belongs to the terminator). -/
def parseLine (l : List Char) : Row :=
  let l' := if l.getLast? = some '\r' then l.dropLast else l
  if l' = [] then [] else splitOnChar ',' l'

/-- `list(csv.reader(f))`: split the text into lines, ignoring the empty
segment after a final newline. -/
def parseFile (t : List Char) : List Row :=
  let segs := splitOnChar '\n' t
  let segs := if segs.getLast? = some [] then segs.dropLast else segs
  segs.map parseLine

/-- The filesystem: path names to file texts. -/
abbrev FS := String → List Char

/-- Create/overwrite one file. -/
def fsWrite (fs : FS) (p : String) (content : List Char) : FS :=
  fun q => if q = p then content else fs q

/-- `ProcessData.process` with its I/O: read the whole input file, run the
pipeline, then (only on success) open the output file and write the result.
The entire input is materialized by `read_csv` before the output is opened. -/
def ProcessData.process (enum : List Row → List Row) (pa pb : ℕ) (seed : Option ℤ)
    (inputSize : ℕ) (dedup isProcessed : Bool) (input_file output_file : String)
    (g : RState) (fs : FS) : Except RowErr FS :=
  match pyProcess enum pa pb seed inputSize dedup isProcessed g (parseFile (fs input_file)) with
  | .error e => .error e
  | .ok rows => .ok (fsWrite fs output_file (renderFile rows))

/-- `dedupSingleCSV` from `mlp_prep.py`: a `ProcessData` with only `dedup=True`
set, so `percentage=100.0`, `seed=None`, `input_size=64`, `isProcessed=False`. -/
def dedupSingleCSV (enum : List Row → List Row) (input_csv output_csv : String)
    (fs : FS) : Except RowErr FS :=
  ProcessData.process enum 100 1 none 64 true false input_csv output_csv 0 fs

/-- Stage A of `processCSVList`: `pool.map(dedupSingleCSV, zip(csv_list,
output_list))`.  The workers have pairwise disjoint targets, so the pool is
modelled as the sequential fold; `pool.map` joins (barrier) before
returning, and any worker exception propagates. -/
def stageA (enum : List Row → List Row) : List (String × String) → FS → Except RowErr FS
  | [], fs => .ok fs
  | (inp, out) :: rest, fs =>
    match dedupSingleCSV enum inp out fs with
    | .error e => .error e
    | .ok fs' => stageA enum rest fs'

/-- Stage B of `processCSVList`: open the combined file and append the raw
text of each per-file output, in the order of `output_list`. -/
def concatStep (fs : FS) (combined : String) (outs : List String) : FS :=
  fsWrite fs combined (outs.map fs).flatten

/-- `processCSVList`: Stage A (parallel dedup with barrier), Stage B
(sequential textual concatenation), Stage C (reprocess the combined file in
place with the run's real percentage/seed/input_size, `dedup=False`,
`isProcessed=True`). -/
def processCSVList (enum : List Row → List Row) (pa pb : ℕ) (seed : Option ℤ)
    (inputSize : ℕ) (csv_list output_list : List String) (combined : String)
    (fs : FS) : Except RowErr FS :=
  match stageA enum (csv_list.zip output_list) fs with
  | .error e => .error e
  | .ok fsA =>
    let fsB := concatStep fsA combined output_list
    ProcessData.process enum pa pb seed inputSize false true combined combined 0 fsB

/-! ## Configuration validation (`mlp_prep.py`) -/

/-- A Python float as consumed by `restricted_percent`: an ordered value
(every finite double is an exact rational) or the non-comparable `nan`
(`float(p)` accepts the string "nan").  Every comparison involving NaN is
false.  `±inf`, not representable as rationals, compare as ordered extremes
and fall squarely in the rejected range, so omitting them loses nothing
relevant to validation. -/
inductive PyFloat where
  /-- An ordered (finite) float value. -/
  | val : ℚ → PyFloat
  /-- The non-comparable NaN. -/
  | nan : PyFloat
deriving DecidableEq, Repr

/-- Python `x < y` on floats: false whenever either operand is NaN. -/
def pfLt (x y : PyFloat) : Bool :=
  match x, y with
  | .val a, .val b => decide (a < b)
  | _, _ => false

/-- `restricted_percent`: raise when `p < 0.0 or p > 100.0`, otherwise
return `p` unchanged.  (`p > 100.0` is `pfLt (val 100) p`.)  NaN fails both
comparisons and is therefore returned unchanged. -/
def restricted_percent (p : PyFloat) : Except String PyFloat :=
  if pfLt p (.val 0) || pfLt (.val 100) p then
    .error "Percentage must be between 0 and 100."
  else .ok p

/-- `restricted_size`: reject sizes outside `[1, 64]`, return the value
unchanged otherwise. -/
def restricted_size (s : ℤ) : Except String ℤ :=
  if s ≤ 0 then .error "Input size must be a positive integer."
  else if 64 < s then .error "Input size must be less than or equal to 64."
  else .ok s

/-! ## Support lemmas: the shuffle is a positional permutation -/

theorem lswap_length (l : List α) (i j : ℕ) : (lswap l i j).length = l.length := by
  unfold lswap
  cases h1 : l[i]? <;> cases h2 : l[j]? <;> simp [h1, h2]

theorem fyGo_length (step : RState → ℕ → RState × ℕ) (n : ℕ) (g : RState) (l : List α) :
    ((fyGo step g l n).2).length = l.length := by
  induction n generalizing g l with
  | zero => rfl
  | succ k ih =>
    rw [fyGo]
    rw [ih]
    exact lswap_length l (k + 1) _

theorem shuffle_data_length (s : ℤ) (g : RState) (l : List α) :
    ((shuffle_data s g l).2).length = l.length :=
  fyGo_length _ _ _ _

/-! ## Support lemmas: the processing loop -/

/-- `true` on success, `false` when the loop raised. -/
def exceptOk : Except ε α → Bool
  | .ok _ => true
  | .error _ => false

theorem processLoop_isOk_iff (f : Row → Except RowErr Row) (l : List Row) :
    exceptOk (processLoop f l) = true ↔ ∀ a ∈ l, exceptOk (f a) = true := by
  induction l with
  | nil => simp [processLoop, exceptOk]
  | cons a t ih =>
    cases hfa : f a with
    | error e => simp [processLoop, hfa, exceptOk]
    | ok r' =>
      cases hpt : processLoop f t with
      | error e =>
        simp only [processLoop, hfa, hpt, exceptOk]
        constructor
        · intro h; cases h
        · intro h
          have := (ih.mpr fun x hx => h x (List.mem_cons_of_mem _ hx))
          rw [hpt] at this; cases this
      | ok rs =>
        simp only [processLoop, hfa, hpt, exceptOk]
        constructor
        · intro _ x hx
          rcases List.mem_cons.mp hx with rfl | hxt
          · simp [hfa, exceptOk]
          · have := ih.mp (by rw [hpt]; rfl)
            exact this x hxt
        · intro _; trivial

/-- `List.dedup` is an admissible model of `list(set(xs))`. -/
theorem setEnum_enumFirst : SetEnum enumFirst :=
  fun l => ⟨List.nodup_dedup l, fun _ => List.mem_dedup⟩

/-! ## C1 — Sampler determinism -/

/-- C1: for every input row sequence and every provided integer seed, the
sampling stage of `ProcessData.process` (seeded shuffle followed by prefix
truncation) produces identical output sequences on two runs, independent of
the prior global random generator state: `random.seed(seed)` makes the
shuffle a pure function of the seed and the input sequence alone. -/
theorem sampler_determinism (pa pb : ℕ) (s : ℤ) (g g' : RState) (rows : List Row) :
    pySamplerStage pa pb (some s) g rows = pySamplerStage pa pb (some s) g' rows := rfl

/-! ## C2 — Masking correctness -/

/-- C2: for every width `W ∈ [1, 64]` and every row whose history field (at
schema index 3) strips and parses as an unsigned base-10 integer `v`, the
decode path of `ProcessData.process` with `isProcessed = false` yields the
label field together with `v &&& (2 ^ W - 1)` re-encoded as a decimal
string, and that masked value is `< 2 ^ W`. -/
theorem masking_correct (W v : ℕ) (row : Row) (f : CsvField)
    (hW1 : 1 ≤ W) (hW2 : W ≤ 64)
    (hf : row[3]? = some f)
    (hv : pyParseInt (stripChars f) = some ((v : ℕ) : ℤ)) :
    ∃ f0, row[0]? = some f0 ∧
      decodeRow W false row = .ok [f0, toDecChars (v &&& (2 ^ W - 1))] ∧
      v &&& (2 ^ W - 1) < 2 ^ W := by
  have h3 : 3 < row.length := by
    rcases List.getElem?_eq_some.mp hf with ⟨h, -⟩
    exact h
  have h0 : 0 < row.length := by omega
  have hf0 : row[0]? = some (row.get ⟨0, h0⟩) := by
    rw [List.get_eq_getElem]
    exact List.getElem?_eq_getElem h0
  refine ⟨row.get ⟨0, h0⟩, hf0, ?_, ?_⟩
  · have hmask : (((v : ℕ) : ℤ) % ((2 : ℤ) ^ W)).toNat = v &&& (2 ^ W - 1) := by
      rw [Nat.and_pow_two_sub_one_eq_mod]
      have hcast : ((2 : ℤ) ^ W) = ((2 ^ W : ℕ) : ℤ) := by push_cast; ring
      rw [hcast]
      omega
    simp [decodeRow, selectIdx, target_indicies, hf0, hf, hv, hmask]
  · rw [Nat.and_pow_two_sub_one_eq_mod]
    exact Nat.mod_lt _ (Nat.two_pow_pos W)

/-- Witness for C2 at `W = 8`, `v = 276`, row `["1","x","x"," 276"]`. -/
theorem masking_correct_witness :
    (1 ≤ 8 ∧ 8 ≤ 64 ∧
      ([['1'], ['x'], ['x'], [' ', '2', '7', '6']] : Row)[3]? = some [' ', '2', '7', '6'] ∧
      pyParseInt (stripChars [' ', '2', '7', '6']) = some ((276 : ℕ) : ℤ)) ∧
    (∃ f0, ([['1'], ['x'], ['x'], [' ', '2', '7', '6']] : Row)[0]? = some f0 ∧
      decodeRow 8 false [['1'], ['x'], ['x'], [' ', '2', '7', '6']] =
        .ok [f0, toDecChars (276 &&& (2 ^ 8 - 1))] ∧
      276 &&& (2 ^ 8 - 1) < 2 ^ 8) :=
  ⟨by decide,
    masking_correct 8 276 [['1'], ['x'], ['x'], [' ', '2', '7', '6']] [' ', '2', '7', '6']
      (by decide) (by decide) (by decide) (by decide)⟩

/-! ## C3 — Malformed-row handling -/

/-- C3 counterexample: a file whose first row is well formed and whose
second row has fewer fields than the schema requires is not "skipped with a
warning": the whole per-file batch run (here with `dedupSingleCSV`'s
configuration) aborts with an uncaught `IndexError`, even though one row
survives. -/
theorem malformed_tolerance_cex :
    pyProcess enumFirst 100 1 none 64 true false 0
      [[['1'], ['x'], ['x'], ['2', '0']], [['0']]] = .error RowErr.indexError := by
  rfl

/-- C3 amended: in per-file batch processing (`seed = None`), a row with
fewer fields than the schema requires or with an unparseable numeric field
is not skipped: it aborts processing of the entire file (the uncaught
exception propagates), so the file succeeds iff every row decodes. -/
theorem malformed_aborts (enum : List Row → List Row) (pa pb W : ℕ)
    (dedup isProcessed : Bool) (g : RState) (rows : List Row) :
    exceptOk (pyProcess enum pa pb none W dedup isProcessed g rows) = true ↔
      ∀ r ∈ rows, exceptOk (decodeRow W isProcessed r) = true := by
  rw [← processLoop_isOk_iff (decodeRow W isProcessed) rows]
  unfold pyProcess
  cases h : processLoop (decodeRow W isProcessed) rows <;>
    simp [pyMaybeShuffle, h, exceptOk]

/-! ## C4 — Already-processed passthrough -/

/-- C4 counterexample: with `isProcessed = true` and `input_size = 8`, the
row `["1", "276"]` is *not* passed through unchanged: the bitmask is
reapplied to the history field, producing `["1", "20"]`. -/
theorem passthrough_cex :
    decodeRow 8 true [['1'], ['2', '7', '6']] = .ok [['1'], ['2', '0']] ∧
      ([['1'], ['2', '0']] : Row) ≠ [['1'], ['2', '7', '6']] :=
  ⟨by rfl, by decide⟩

/-- C4 amended: when `isProcessed` is true, only the column extraction is
skipped; the history field at index 1 is still stripped, parsed, masked to
`input_size` bits and re-encoded as a decimal string. -/
theorem passthrough_amended (W : ℕ) (row : Row) (f : CsvField) (v : ℤ)
    (hf : row[1]? = some f) (hv : pyParseInt (stripChars f) = some v) :
    decodeRow W true row = .ok (row.set 1 (toDecChars ((v % (2 : ℤ) ^ W).toNat))) := by
  simp [decodeRow, hf, hv]

/-- Witness for C4's amended claim at `W = 8`, row `["1", "276", "z"]`. -/
theorem passthrough_amended_witness :
    (([['1'], ['2', '7', '6'], ['z']] : Row)[1]? = some ['2', '7', '6'] ∧
      pyParseInt (stripChars ['2', '7', '6']) = some 276) ∧
    decodeRow 8 true [['1'], ['2', '7', '6'], ['z']] =
      .ok (([['1'], ['2', '7', '6'], ['z']] : Row).set 1
        (toDecChars (((276 : ℤ) % (2 : ℤ) ^ 8).toNat))) :=
  ⟨by decide,
    passthrough_amended 8 [['1'], ['2', '7', '6'], ['z']] ['2', '7', '6'] 276
      (by decide) (by decide)⟩

/-! ## C7 — Deduplicator semantics -/

/-- C7: the dedup stage treats two rows as equal iff they agree elementwise
(exact label and masked-history match), its output has the same members as
its input with no duplicates, and it is idempotent as a set — for every
admissible enumeration order of the underlying Python `set`. -/
theorem dedup_semantics (enum : List Row → List Row) (X : List Row) (h : SetEnum enum) :
    (∀ a b : Row, a = b ↔ a.length = b.length ∧
        ∀ (i : ℕ) (h1 : i < a.length) (h2 : i < b.length), a.get ⟨i, h1⟩ = b.get ⟨i, h2⟩) ∧
      (∀ a, a ∈ pyDedup enum true X ↔ a ∈ X) ∧
      (pyDedup enum true X).Nodup ∧
      (∀ a, a ∈ pyDedup enum true (pyDedup enum true X) ↔ a ∈ pyDedup enum true X) :=
  ⟨fun _ _ => List.ext_get_iff, fun a => (h X).2 a, (h X).1, fun a => (h _).2 a⟩

/-- Witness for C7 with the concrete enumeration `enumFirst` on the corpus
`[(1,5), (1,5), (0,3)]`. -/
theorem dedup_semantics_witness :
    SetEnum enumFirst ∧
      (∀ a, a ∈ pyDedup enumFirst true [[['1'], ['5']], [['1'], ['5']], [['0'], ['3']]] ↔
        a ∈ [[['1'], ['5']], [['1'], ['5']], [['0'], ['3']]]) :=
  ⟨setEnum_enumFirst,
    (dedup_semantics enumFirst [[['1'], ['5']], [['1'], ['5']], [['0'], ['3']]]
      setEnum_enumFirst).2.1⟩

/-! ## C8 — Configuration validation -/

/-- C8 counterexample: `float("nan")` is outside `[0, 100]` — it is no
rational value at all, and every order comparison against the bounds is
false — yet `restricted_percent` accepts it unchanged instead of raising:
`nan < 0.0` and `nan > 100.0` are both false in Python.  The rejection of
out-of-range percentages at configuration time is therefore not exhaustive;
a NaN percentage only fails later, inside processing, after file I/O. -/
theorem config_validation_cex :
    restricted_percent PyFloat.nan = .ok PyFloat.nan ∧
      (∀ q : ℚ, PyFloat.nan ≠ PyFloat.val q) ∧
      pfLt PyFloat.nan (PyFloat.val 0) = false ∧
      pfLt (PyFloat.val 0) PyFloat.nan = false ∧
      pfLt PyFloat.nan (PyFloat.val 100) = false ∧
      pfLt (PyFloat.val 100) PyFloat.nan = false :=
  ⟨rfl, fun _ h => PyFloat.noConfusion h, rfl, rfl, rfl, rfl⟩

/-- C8 amended: `restricted_percent` raises exactly for *ordered* values
outside `[0, 100]` and returns accepted values unchanged; the
non-comparable NaN fails both comparisons and is accepted unchanged,
surfacing only later during processing.  `restricted_size` (an integer
check) rejects exactly the sizes outside `[1, 64]` and returns the value
unchanged. -/
theorem config_validation :
    (∀ q : ℚ, restricted_percent (.val q) = .ok (.val q) ↔ 0 ≤ q ∧ q ≤ 100) ∧
      (∀ p r : PyFloat, restricted_percent p = .ok r → r = p) ∧
      (∀ q : ℚ, (∃ msg, restricted_percent (.val q) = .error msg) ↔ q < 0 ∨ 100 < q) ∧
      restricted_percent PyFloat.nan = .ok PyFloat.nan ∧
      (∀ s : ℤ, restricted_size s = .ok s ↔ 1 ≤ s ∧ s ≤ 64) ∧
      (∀ s t : ℤ, restricted_size s = .ok t → t = s) ∧
      (∀ s : ℤ, (∃ msg, restricted_size s = .error msg) ↔ s ≤ 0 ∨ 64 < s) := by
  have hcond : ∀ q : ℚ,
      (pfLt (.val q) (.val 0) || pfLt (.val 100) (.val q)) = true ↔ q < 0 ∨ 100 < q := by
    intro q
    simp [pfLt]
  refine ⟨fun q => ?_, fun p r => ?_, fun q => ?_, rfl, fun s => ?_, fun s t => ?_, fun s => ?_⟩
  · unfold restricted_percent
    by_cases h : q < 0 ∨ 100 < q
    · rw [if_pos ((hcond q).mpr h)]
      simp only [reduceCtorEq, false_iff]
      rintro ⟨h0, h100⟩
      rcases h with h' | h' <;> linarith
    · rw [if_neg (fun hc => h ((hcond q).mp hc))]
      push_neg at h
      simp only [Except.ok.injEq, true_iff]
      exact ⟨h.1, h.2⟩
  · unfold restricted_percent
    split_ifs with h
    · intro hc; cases hc
    · intro hc; cases hc; rfl
  · unfold restricted_percent
    by_cases h : q < 0 ∨ 100 < q
    · rw [if_pos ((hcond q).mpr h)]
      exact ⟨fun _ => h, fun _ => ⟨_, rfl⟩⟩
    · rw [if_neg (fun hc => h ((hcond q).mp hc))]
      constructor
      · rintro ⟨msg, hc⟩; cases hc
      · intro hc; exact absurd hc h
  · unfold restricted_size
    split_ifs with h1 h2
    · simp only [reduceCtorEq, false_iff]; rintro ⟨ha, -⟩; omega
    · simp only [reduceCtorEq, false_iff]; rintro ⟨-, hb⟩; omega
    · simp only [Except.ok.injEq, true_iff]; omega
  · unfold restricted_size
    split_ifs with h1 h2
    · intro hc; cases hc
    · intro hc; cases hc
    · intro hc; cases hc; rfl
  · unfold restricted_size
    split_ifs with h1 h2
    · exact ⟨fun _ => Or.inl h1, fun _ => ⟨_, rfl⟩⟩
    · exact ⟨fun _ => Or.inr h2, fun _ => ⟨_, rfl⟩⟩
    · constructor
      · rintro ⟨msg, hc⟩; cases hc
      · intro hc; rcases hc with hc | hc <;> omega

/-! ## Support lemmas: the binary64 model -/

theorem bitLenF_zero (fuel : ℕ) : bitLenF fuel 0 = 0 := by
  cases fuel <;> rfl

theorem bitLenF_spec : ∀ fuel n : ℕ, n ≤ fuel → 0 < n →
    ∃ L, bitLenF fuel n = L + 1 ∧ 2 ^ L ≤ n ∧ n < 2 ^ (L + 1) := by
  intro fuel
  induction fuel with
  | zero => intro n h1 h2; exact absurd h1 (by omega)
  | succ k ih =>
    intro n h1 h2
    rw [bitLenF, if_neg (by omega)]
    by_cases hn1 : n = 1
    · subst hn1
      refine ⟨0, ?_, by norm_num, by norm_num⟩
      rw [show (1 : ℕ) / 2 = 0 from rfl, bitLenF_zero]
    · have hh : n / 2 ≤ k := by omega
      have hp : 0 < n / 2 := by omega
      obtain ⟨L, hL, hlow, hhigh⟩ := ih (n / 2) hh hp
      have e1 : 2 ^ (L + 1) = 2 * 2 ^ L := by ring
      have e2 : 2 ^ (L + 1 + 1) = 2 * 2 ^ (L + 1) := by ring
      exact ⟨L + 1, by rw [hL], by omega, by omega⟩

theorem bitLen_spec (n : ℕ) (hn : 0 < n) :
    ∃ L, bitLen n = L + 1 ∧ 2 ^ L ≤ n ∧ n < 2 ^ (L + 1) :=
  bitLenF_spec n n le_rfl hn

theorem div_lt_qpow (a b p q : ℕ) (hb : 0 < b) (ha : a < 2 ^ p) (hq : 2 ^ q ≤ b) :
    (a : ℚ) / b < (2 : ℚ) ^ ((p : ℤ) - q) := by
  have hb' : (0 : ℚ) < b := by exact_mod_cast hb
  rw [zpow_sub₀ (two_ne_zero), zpow_natCast, zpow_natCast,
    div_lt_div_iff hb' (by positivity)]
  have hnat : a * 2 ^ q < 2 ^ p * b := by
    calc a * 2 ^ q < 2 ^ p * 2 ^ q :=
          mul_lt_mul_of_pos_right ha (by positivity)
      _ ≤ 2 ^ p * b := Nat.mul_le_mul_left _ hq
  exact_mod_cast hnat

theorem qpow_le_div (a b p q : ℕ) (hb : 0 < b) (ha : 2 ^ p ≤ a) (hq : b ≤ 2 ^ q) :
    (2 : ℚ) ^ ((p : ℤ) - q) ≤ (a : ℚ) / b := by
  have hb' : (0 : ℚ) < b := by exact_mod_cast hb
  rw [zpow_sub₀ (two_ne_zero), zpow_natCast, zpow_natCast,
    div_le_div_iff (by positivity) hb']
  have hnat : 2 ^ p * b ≤ a * 2 ^ q := by
    calc 2 ^ p * b ≤ a * b := Nat.mul_le_mul_right _ ha
      _ ≤ a * 2 ^ q := Nat.mul_le_mul_left _ hq
  exact_mod_cast hnat

theorem qLe2p_iff (a b : ℕ) (hb : 0 < b) (e : ℤ) :
    qLe2p b a e = true ↔ (2 : ℚ) ^ e ≤ (a : ℚ) / b := by
  have hb' : (0 : ℚ) < b := by exact_mod_cast hb
  unfold qLe2p
  split_ifs with hs
  · rw [decide_eq_true_eq]
    rw [show e = ((e.toNat : ℕ) : ℤ) by omega, zpow_natCast]
    rw [le_div_iff hb']
    constructor
    · intro h
      have : ((b * 2 ^ e.toNat : ℕ) : ℚ) ≤ (a : ℚ) := by exact_mod_cast h
      calc (2 : ℚ) ^ e.toNat * b = ((b * 2 ^ e.toNat : ℕ) : ℚ) := by push_cast; ring
        _ ≤ (a : ℚ) := this
    · intro h
      have : ((b * 2 ^ e.toNat : ℕ) : ℚ) ≤ (a : ℚ) := by
        calc ((b * 2 ^ e.toNat : ℕ) : ℚ) = (2 : ℚ) ^ e.toNat * b := by push_cast; ring
          _ ≤ (a : ℚ) := h
      exact_mod_cast this
  · rw [decide_eq_true_eq]
    have ht : (2 : ℚ) ^ e = 1 / (2 : ℚ) ^ (-e).toNat := by
      have hE : e = -(((-e).toNat : ℕ) : ℤ) := by omega
      calc (2 : ℚ) ^ e = (2 : ℚ) ^ (-(((-e).toNat : ℕ) : ℤ)) := by rw [← hE]
        _ = 1 / (2 : ℚ) ^ (-e).toNat := by rw [zpow_neg, zpow_natCast, one_div]
    rw [ht, div_le_div_iff (by positivity) hb']
    constructor
    · intro h
      have hc : ((b : ℕ) : ℚ) ≤ ((a * 2 ^ (-e).toNat : ℕ) : ℚ) := by exact_mod_cast h
      push_cast at hc
      linarith
    · intro h
      have hc : ((b : ℕ) : ℚ) ≤ ((a * 2 ^ (-e).toNat : ℕ) : ℚ) := by push_cast; linarith
      exact_mod_cast hc

theorem qExp_spec (a b : ℕ) (ha : 0 < a) (hb : 0 < b) :
    (2 : ℚ) ^ qExp a b ≤ (a : ℚ) / b ∧ (a : ℚ) / b < (2 : ℚ) ^ (qExp a b + 1) := by
  obtain ⟨La, hLa, haL, haU⟩ := bitLen_spec a ha
  obtain ⟨Lb, hLb, hbL, hbU⟩ := bitLen_spec b hb
  have hq : qExp a b =
      if qLe2p b a ((bitLen a : ℤ) - (bitLen b : ℤ)) then (bitLen a : ℤ) - (bitLen b : ℤ)
      else (bitLen a : ℤ) - (bitLen b : ℤ) - 1 := rfl
  rw [hq, hLa, hLb]
  by_cases ht : qLe2p b a (((La + 1 : ℕ) : ℤ) - ((Lb + 1 : ℕ) : ℤ)) = true
  · rw [if_pos ht]
    refine ⟨(qLe2p_iff a b hb _).mp ht, ?_⟩
    have hup := div_lt_qpow a b (La + 1) Lb hb haU hbL
    have hexp : ((La + 1 : ℕ) : ℤ) - ((Lb + 1 : ℕ) : ℤ) + 1 = ((La + 1 : ℕ) : ℤ) - (Lb : ℕ) := by
      push_cast; ring
    rw [hexp]
    exact hup
  · rw [if_neg ht]
    constructor
    · have hlo := qpow_le_div a b La (Lb + 1) hb haL (le_of_lt hbU)
      have hexp : ((La + 1 : ℕ) : ℤ) - ((Lb + 1 : ℕ) : ℤ) - 1 = ((La : ℕ) : ℤ) - ((Lb + 1 : ℕ)) := by
        push_cast; ring
      rw [hexp]
      exact hlo
    · have hlt := lt_of_not_le fun hcon => ht ((qLe2p_iff a b hb _).mpr hcon)
      have hexp : ((La + 1 : ℕ) : ℤ) - ((Lb + 1 : ℕ) : ℤ) - 1 + 1
          = ((La + 1 : ℕ) : ℤ) - ((Lb + 1 : ℕ) : ℤ) := by ring
      rw [hexp]
      exact hlt

theorem zpow_le_nat_lt (x : ℤ) (n M : ℕ) (h1 : (2 : ℚ) ^ x ≤ (n : ℚ)) (h2 : n < 2 ^ M) :
    x < (M : ℤ) := by
  by_contra hcon
  push_neg at hcon
  have hm : (2 : ℚ) ^ ((M : ℕ) : ℤ) ≤ (2 : ℚ) ^ x := zpow_le_zpow_right₀ (by norm_num) hcon
  rw [zpow_natCast] at hm
  have : ((2 ^ M : ℕ) : ℚ) ≤ (n : ℚ) := by
    calc ((2 ^ M : ℕ) : ℚ) = (2 : ℚ) ^ M := by push_cast; ring
      _ ≤ (n : ℚ) := le_trans hm h1
  exact absurd (Nat.cast_le.mp this) (by omega)

theorem nat_lt_zpow_nonneg (x : ℤ) (n : ℕ) (hn : 0 < n) (h : (n : ℚ) < (2 : ℚ) ^ (x + 1)) :
    0 ≤ x := by
  by_contra hcon
  push_neg at hcon
  have hx1 : x + 1 ≤ 0 := by omega
  have hle : (2 : ℚ) ^ (x + 1) ≤ (2 : ℚ) ^ (0 : ℤ) := zpow_le_zpow_right₀ (by norm_num) hx1
  have h1 : ((n : ℕ) : ℚ) < 1 := by
    calc ((n : ℕ) : ℚ) < (2 : ℚ) ^ (x + 1) := h
      _ ≤ (2 : ℚ) ^ (0 : ℤ) := hle
      _ = 1 := zpow_zero 2
  have h2 : (1 : ℚ) ≤ ((n : ℕ) : ℚ) := by
    have : (1 : ℕ) ≤ n := hn
    exact_mod_cast this
  linarith

/-- Rounding an exactly representable integer value is the identity: for
`n < 2 ^ 53`, the binary64 rounding of the rational `(n * b) / b` recovers
exactly `n` after the final `int(...)` truncation. -/
theorem roundPos_int (n b : ℕ) (hn : 0 < n) (hb : 0 < b) (hlt : n < 2 ^ 53) :
    dyadFloor (roundPos (n * b) b).1 (roundPos (n * b) b).2 = n := by
  have hv : ((n * b : ℕ) : ℚ) / b = (n : ℚ) := by
    push_cast
    field_simp
  obtain ⟨hle, hlt2⟩ := qExp_spec (n * b) b (by positivity) hb
  rw [hv] at hle hlt2
  have he0 : 0 ≤ qExp (n * b) b := nat_lt_zpow_nonneg _ n hn hlt2
  have he53 : qExp (n * b) b < 53 := zpow_le_nat_lt _ n 53 hle hlt
  set e := qExp (n * b) b with he
  have hs : (0 : ℤ) ≤ 52 - e := by omega
  have hA : n * b * 2 ^ ((52 - e).toNat) = n * 2 ^ ((52 - e).toNat) * b := by ring
  have hm : rneScaled (n * b) b (52 - e) = n * 2 ^ ((52 - e).toNat) := by
    unfold rneScaled rneDiv
    rw [if_pos hs, if_pos hs, hA, Nat.mul_div_cancel _ hb, Nat.mul_mod_left]
    rw [if_pos (by omega)]
  have hr : roundPos (n * b) b = (n * 2 ^ ((52 - e).toNat), e - 52) := by
    unfold roundPos
    rw [← he, hm]
  rw [hr]
  unfold dyadFloor
  by_cases he52 : e = 52
  · rw [if_pos (by omega)]
    rw [he52]
    norm_num
  · rw [if_neg (by omega)]
    have ht : (-(e - 52)).toNat = (52 - e).toNat := by omega
    rw [ht, Nat.mul_div_cancel _ (by positivity)]

theorem pyTakeCount_zero (pb n : ℕ) : pyTakeCount 0 pb n = 0 := by
  unfold pyTakeCount fl1 fl2 dyadFloor
  norm_num

theorem pyTakeCount_hundred (n : ℕ) (hlt : n < 2 ^ 53) : pyTakeCount 100 1 n = n := by
  rcases Nat.eq_zero_or_pos n with hn | hn
  · subst hn
    rfl
  · have h1 : fl1 100 1 = (2 ^ 52, -52) := by decide
    unfold pyTakeCount
    rw [h1]
    have h2 : fl2 ((2 ^ 52 : ℕ), (-52 : ℤ)).1 ((2 ^ 52 : ℕ), (-52 : ℤ)).2 n
        = roundPos (n * 2 ^ 52) (2 ^ 52) := by
      unfold fl2
      rw [if_neg (by positivity), if_neg (by norm_num)]
      have hT : (2 : ℕ) ^ ((-((-52 : ℤ))).toNat) = 2 ^ 52 := by rfl
      rw [hT, mul_comm]
    rw [h2]
    exact roundPos_int n (2 ^ 52) hn (by positivity) hlt

/-! ## C6 — Prefix-count law -/

/-- 100 pairwise distinct rows, for the prefix-count counterexample. -/
def cexRows : List Row := (List.range 100).map fun i => [toDecChars i]

/-- C6 counterexample: on 100 rows with `percentage = 29` (and no seed, so
in input order) the sampling stage outputs `int((29 / 100) * 100) = 28`
rows, because in binary64 arithmetic `(29 / 100) * 100` evaluates to
`28.999999999999996…`; the claimed count `floor(29 / 100 * 100)` is 29. -/
theorem prefix_count_cex :
    cexRows.length = 100 ∧
      (pySamplerStage 29 1 none 0 cexRows).length = 28 ∧
      29 * 100 / 100 = 29 :=
  ⟨by rfl, by rfl, by rfl⟩

/-- C6 amended: the sampling stage outputs `min(t, N)` rows on an `N`-row
collection, where `t = int((P / 100) * N)` is computed in binary64 floating
point (`P` stored exactly as `pa / pb`); `t` can differ from the exact
`floor(P / 100 * N)` (e.g. `P = 29, N = 100` yields 28).  The claimed
boundaries do hold: `percentage = 0` yields an empty output and
`percentage = 100` yields all `N` rows, for any realizable `N < 2 ^ 53`. -/
theorem prefix_count_law (pa pb : ℕ) (seed : Option ℤ) (g : RState) (rows : List Row)
    (hlt : rows.length < 2 ^ 53) :
    (pySamplerStage pa pb seed g rows).length
        = min (pyTakeCount pa pb rows.length) rows.length ∧
      pySamplerStage 0 pb seed g rows = [] ∧
      (pySamplerStage 100 1 seed g rows).length = rows.length := by
  have hL : (pyMaybeShuffle seed g rows).length = rows.length := by
    cases seed with
    | none => rfl
    | some t => exact shuffle_data_length t g rows
  refine ⟨?_, ?_, ?_⟩
  · unfold pySamplerStage pyTruncate
    rw [List.length_take, hL]
  · unfold pySamplerStage pyTruncate
    rw [pyTakeCount_zero]
    exact List.take_zero _
  · unfold pySamplerStage pyTruncate
    rw [List.length_take, hL, pyTakeCount_hundred rows.length hlt, min_self]

/-- Witness for C6's amended law on a 3-row collection with `P = 29`. -/
theorem prefix_count_law_witness :
    (([[['a']], [['b']], [['c']]] : List Row).length < 2 ^ 53) ∧
      ((pySamplerStage 29 1 none 0 [[['a']], [['b']], [['c']]]).length
          = min (pyTakeCount 29 1 ([[['a']], [['b']], [['c']]] : List Row).length)
              ([[['a']], [['b']], [['c']]] : List Row).length ∧
        pySamplerStage 0 1 none 0 [[['a']], [['b']], [['c']]] = [] ∧
        (pySamplerStage 100 1 none 0 [[['a']], [['b']], [['c']]]).length
          = ([[['a']], [['b']], [['c']]] : List Row).length) :=
  ⟨by decide, prefix_count_law 29 1 none 0 [[['a']], [['b']], [['c']]] (by decide)⟩

/-! ## C9 — Merge barrier and concatenation order -/

/-- Stage-A invariant: on success every worker has written exactly the
rendering of its own input's deduplicated rows (computed from the original
filesystem) to its own output path, and no other path changed. -/
theorem stageA_spec (enum : List Row → List Row) :
    ∀ (pairs : List (String × String)) (fs fsA : FS),
      stageA enum pairs fs = .ok fsA →
      (pairs.map Prod.snd).Nodup →
      (∀ pr ∈ pairs, ∀ pr' ∈ pairs, pr.1 ≠ pr'.2) →
      (∀ p, p ∉ pairs.map Prod.snd → fsA p = fs p) ∧
      (∀ pr ∈ pairs, ∃ rows,
        pyProcess enum 100 1 none 64 true false 0 (parseFile (fs pr.1)) = .ok rows ∧
        fsA pr.2 = renderFile rows) := by
  intro pairs
  induction pairs with
  | nil =>
    intro fs fsA h _ _
    rw [stageA] at h
    cases h
    exact ⟨fun p _ => rfl, fun pr hpr => absurd hpr (List.not_mem_nil pr)⟩
  | cons hd rest ih =>
    intro fs fsA h hnodup hdisj
    obtain ⟨inp, out⟩ := hd
    rw [stageA] at h
    cases hD : dedupSingleCSV enum inp out fs with
    | error e => rw [hD] at h; cases h
    | ok fs1 =>
      rw [hD] at h
      cases hP : pyProcess enum 100 1 none 64 true false 0 (parseFile (fs inp)) with
      | error e =>
        exfalso
        unfold dedupSingleCSV ProcessData.process at hD
        rw [hP] at hD
        cases hD
      | ok rows =>
        have hfs1 : fs1 = fsWrite fs out (renderFile rows) := by
          unfold dedupSingleCSV ProcessData.process at hD
          rw [hP] at hD
          cases hD
          rfl
        rw [List.map_cons] at hnodup
        have hout_rest : out ∉ rest.map Prod.snd := (List.nodup_cons.mp hnodup).1
        have hnodup' : (rest.map Prod.snd).Nodup := (List.nodup_cons.mp hnodup).2
        have hdisj' : ∀ pr ∈ rest, ∀ pr' ∈ rest, pr.1 ≠ pr'.2 := fun pr hpr pr' hpr' =>
          hdisj pr (List.mem_cons_of_mem _ hpr) pr' (List.mem_cons_of_mem _ hpr')
        obtain ⟨ihA, ihB⟩ := ih fs1 fsA h hnodup' hdisj'
        constructor
        · intro p hp
          rw [List.map_cons, List.mem_cons] at hp
          push_neg at hp
          rw [ihA p hp.2, hfs1]
          unfold fsWrite
          rw [if_neg hp.1]
        · intro pr hpr
          rcases List.mem_cons.mp hpr with rfl | hprr
          · refine ⟨rows, hP, ?_⟩
            rw [ihA out hout_rest, hfs1]
            unfold fsWrite
            rw [if_pos rfl]
          · obtain ⟨rows', hP', hout'⟩ := ihB pr hprr
            refine ⟨rows', ?_, hout'⟩
            have hne : pr.1 ≠ out :=
              hdisj pr (List.mem_cons_of_mem _ hprr) (inp, out) (List.mem_cons_self _ _)
            have heq : fs1 pr.1 = fs pr.1 := by
              rw [hfs1]
              unfold fsWrite
              rw [if_neg hne]
            rw [← heq]
            exact hP'

/-- C9: after every Stage-A worker has completed (`pool.map` joins before
`processCSVList` continues), the combined file holds exactly the textual
concatenation of the per-file outputs in the order the output paths were
supplied, and the `i`-th segment is the rendering of the `i`-th input
file's deduplicated rows, computed from the pre-run filesystem. -/
theorem merge_concat_order (enum : List Row → List Row) (csvs outs : List String)
    (combined : String) (fs fsA : FS)
    (hlen : csvs.length = outs.length)
    (hnodup : outs.Nodup)
    (hdisj : ∀ c ∈ csvs, c ∉ outs)
    (hA : stageA enum (csvs.zip outs) fs = .ok fsA) :
    (concatStep fsA combined outs) combined = (outs.map fsA).flatten ∧
      ∀ (i : ℕ) (hi : i < csvs.length) (hio : i < outs.length), ∃ rows,
        pyProcess enum 100 1 none 64 true false 0
            (parseFile (fs (csvs.get ⟨i, hi⟩))) = .ok rows ∧
        fsA (outs.get ⟨i, hio⟩) = renderFile rows := by
  have hmapsnd : (csvs.zip outs).map Prod.snd = outs :=
    List.map_snd_zip csvs outs (by omega)
  have hdisj2 : ∀ pr ∈ csvs.zip outs, ∀ pr' ∈ csvs.zip outs, pr.1 ≠ pr'.2 := by
    intro pr hpr pr' hpr' hc
    have h1 : pr.1 ∈ csvs := by
      obtain ⟨a, b⟩ := pr
      exact (List.of_mem_zip hpr).1
    have h2 : pr'.2 ∈ outs := by
      obtain ⟨a, b⟩ := pr'
      exact (List.of_mem_zip hpr').2
    exact hdisj pr.1 h1 (hc ▸ h2)
  obtain ⟨hA1, hA2⟩ := stageA_spec enum (csvs.zip outs) fs fsA hA
    (by rw [hmapsnd]; exact hnodup) hdisj2
  constructor
  · unfold concatStep fsWrite
    rw [if_pos rfl]
  · intro i hi hio
    have hiz : i < (csvs.zip outs).length := by
      rw [List.length_zip]
      omega
    have hget : (csvs.zip outs).get ⟨i, hiz⟩
        = (csvs.get ⟨i, hi⟩, outs.get ⟨i, hio⟩) := List.get_zip
    have hmem : ((csvs.get ⟨i, hi⟩, outs.get ⟨i, hio⟩) : String × String) ∈ csvs.zip outs := by
      rw [← hget]
      exact List.get_mem _ i hiz
    exact hA2 _ hmem

/-- Concrete filesystem for the C9 witness run. -/
def c9fs : FS := fun p =>
  if p = "a.csv" then ("1,x,x,5\r\n1,x,x,5\r\n0,x,x,3\r\n").data else []

/-- The filesystem after the C9 witness's Stage A. -/
def c9fsA : FS :=
  match stageA enumFirst [("a.csv", "b.csv")] c9fs with
  | .ok f => f
  | .error _ => c9fs

/-- Witness for C9 on a one-file run. -/
theorem merge_concat_order_witness :
    ((["a.csv"] : List String).length = (["b.csv"] : List String).length ∧
      (["b.csv"] : List String).Nodup ∧
      (∀ c ∈ (["a.csv"] : List String), c ∉ (["b.csv"] : List String)) ∧
      stageA enumFirst ([("a.csv", "b.csv")]) c9fs = .ok c9fsA) ∧
    ((concatStep c9fsA "c.csv" ["b.csv"]) "c.csv" = ((["b.csv"] : List String).map c9fsA).flatten ∧
      ∀ (i : ℕ) (hi : i < (["a.csv"] : List String).length)
          (hio : i < (["b.csv"] : List String).length), ∃ rows,
        pyProcess enumFirst 100 1 none 64 true false 0
            (parseFile (c9fs ((["a.csv"] : List String).get ⟨i, hi⟩))) = .ok rows ∧
        c9fsA ((["b.csv"] : List String).get ⟨i, hio⟩) = renderFile rows) :=
  ⟨⟨rfl, by decide, by decide, by rfl⟩,
    merge_concat_order enumFirst ["a.csv"] ["b.csv"] "c.csv" c9fs c9fsA rfl
      (by decide) (by decide) (by rfl)⟩

/-! ## C10 — In-place reprocessing safety -/

/-- C10: `ProcessData.process` reads the entire input file before the
output file is opened, so a call with `output_file = input_file` (as the
merger's final global pass performs on the combined file) computes its
output entirely from the input file's original contents and then replaces
the file with exactly that result. -/
theorem inplace_reprocess (enum : List Row → List Row) (pa pb W : ℕ) (seed : Option ℤ)
    (dedup isProcessed : Bool) (p : String) (g : RState) (fs : FS) (rows : List Row)
    (h : pyProcess enum pa pb seed W dedup isProcessed g (parseFile (fs p)) = .ok rows) :
    ProcessData.process enum pa pb seed W dedup isProcessed p p g fs
        = .ok (fsWrite fs p (renderFile rows)) ∧
      (fsWrite fs p (renderFile rows)) p = renderFile rows := by
  constructor
  · unfold ProcessData.process
    rw [h]
  · unfold fsWrite
    rw [if_pos rfl]

/-- Concrete filesystem for the C10 witness run. -/
def c10fs : FS := fun p =>
  if p = "d.csv" then ("1,x,x,276\r\n0,x,x,3\r\n").data else []

/-- Witness for C10: reprocessing `d.csv` onto itself with `input_size = 8`. -/
theorem inplace_reprocess_witness :
    pyProcess enumFirst 100 1 none 8 true false 0 (parseFile (c10fs "d.csv"))
        = .ok [[['1'], ['2', '0']], [['0'], ['3']]] ∧
      (ProcessData.process enumFirst 100 1 none 8 true false "d.csv" "d.csv" 0 c10fs
          = .ok (fsWrite c10fs "d.csv" (renderFile [[['1'], ['2', '0']], [['0'], ['3']]])) ∧
        (fsWrite c10fs "d.csv" (renderFile [[['1'], ['2', '0']], [['0'], ['3']]])) "d.csv"
          = renderFile [[['1'], ['2', '0']], [['0'], ['3']]]) :=
  ⟨by rfl,
    inplace_reprocess enumFirst 100 1 8 none true false "d.csv" 0 c10fs
      [[['1'], ['2', '0']], [['0'], ['3']]] (by rfl)⟩
